import Mathlib

/-!
Shallow embedding of `neqo-transport/src/packet2.rs`: the QUIC packet
builder (short/long headers, packet number, header protection), Retry
packet construction and Version Negotiation construction, together with
theorems about the wire layout they produce.

Bytes are modelled as `Nat` (each value kept below 256 at every write the
Rust type system forces to `u8`), the growable output buffer (`Encoder`
from `neqo_common`) as `List Nat`, and the external encryption provider
(`CryptoDxState`) as a record of functions.  Fallible operations return
`Except Error`; a Rust panic (`assert!`) is modelled as `Option.none`.
-/

namespace Packet2

/-- Modelled from the spec: the crate-level `Error` type (not part of the
excerpt).  The spec distinguishes an encryption failure propagated from the
provider from an internal error (fixed-key protector unavailable); neither
carries any data. -/
inductive Error where
  | internalError
  | cryptoError
deriving DecidableEq, Repr

/-- The growable output buffer (`neqo_common::Encoder`), as its byte list. -/
abbrev Encoder := List Nat

/-- Modelled from the spec: the buffer's `encode_byte` appends one byte. -/
def encode_byte (e : Encoder) (b : Nat) : Encoder := e ++ [b % 256]

/-- Modelled from the spec: `Encoder::encode` appends raw bytes. -/
def encode (e : Encoder) (d : List Nat) : Encoder := e ++ d

/-- Modelled from the spec: the `n`-byte big-endian encoding of `v`
produced by `Encoder::encode_uint` (most significant byte first). -/
def uintBytes : Nat → Nat → List Nat
  | 0, _ => []
  | n + 1, v => ((v >>> (8 * n)) % 256) :: uintBytes n v

/-- Modelled from the spec: `Encoder::encode_uint n v` appends `v` as an
`n`-byte big-endian field. -/
def encode_uint (e : Encoder) (n v : Nat) : Encoder := e ++ uintBytes n v

/-- Modelled from the spec: `Encoder::encode_vec 1 d` appends `d` as a
1-byte-length-prefixed field. -/
def encode_vec1 (e : Encoder) (d : List Nat) : Encoder :=
  e ++ uintBytes 1 d.length ++ d

/-- Modelled from the spec: the QUIC variable-length-integer encoding used
by `Encoder::encode_vvec` for the length prefix. -/
def varintBytes (v : Nat) : List Nat :=
  if v < 0x40 then uintBytes 1 v
  else if v < 0x4000 then uintBytes 2 (v ||| 0x4000)
  else if v < 0x40000000 then uintBytes 4 (v ||| 0x80000000)
  else uintBytes 8 (v ||| 0xc000000000000000)

/-- Modelled from the spec: `Encoder::encode_vvec` appends `d` as a
varint-length-prefixed field. -/
def encode_vvec (e : Encoder) (d : List Nat) : Encoder :=
  e ++ varintBytes d.length ++ d

def PACKET_TYPE_INITIAL : Nat := 0x0
def PACKET_TYPE_0RTT : Nat := 0x01
def PACKET_TYPE_HANDSHAKE : Nat := 0x2
def PACKET_TYPE_RETRY : Nat := 0x03

def PACKET_BIT_LONG : Nat := 0x80
def PACKET_BIT_SHORT : Nat := 0x00
def PACKET_BIT_FIXED_QUIC : Nat := 0x40

def SAMPLE_SIZE : Nat := 16

/-- Modelled from the spec: the protocol's current version constant
(`QUIC_VERSION`, defined at crate level outside the excerpt); the value is
the one the conformance tests in the excerpt expect on the wire
(draft-24, bytes `ff 00 00 18`). -/
def QUIC_VERSION : Nat := 0xff000018

inductive PacketType where
  | VersionNegotiation
  | Initial
  | Handshake
  | ZeroRtt
  | Retry
  | Short
deriving DecidableEq, Repr

/-- Embeds `PacketType::code`; the Rust function panics on `VersionNegotiation`
and `Short`, modelled as `none`. -/
def PacketType.code : PacketType → Option Nat
  | .Initial => some PACKET_TYPE_INITIAL
  | .ZeroRtt => some PACKET_TYPE_0RTT
  | .Handshake => some PACKET_TYPE_HANDSHAKE
  | .Retry => some PACKET_TYPE_RETRY
  | _ => none

structure PacketBuilderoffsets where
  /-- The bits of the first octet that need masking. -/
  first_byte_mask : Nat
  /-- The offset of the length field. -/
  len : Nat
  /-- The location of the packet number field, as `(start, stop)`. -/
  pn : Nat × Nat
deriving Repr

/-- A packet builder that can be used to produce short packets and long
packets (not Retry or Version Negotiation). -/
structure PacketBuilder where
  encoder : Encoder
  pn : Nat
  header : Nat × Nat
  offsets : PacketBuilderoffsets
deriving Repr

/-- Embeds `PacketBuilder::short`. -/
def PacketBuilder.short (encoder : Encoder) (key_phase : Bool) (dcid : List Nat) :
    PacketBuilder :=
  let header_start := encoder.length
  let encoder := encode_byte encoder
    (PACKET_BIT_SHORT ||| PACKET_BIT_FIXED_QUIC ||| ((if key_phase then 1 else 0) <<< 2))
  let encoder := encode encoder dcid
  { encoder := encoder
    pn := 2 ^ 64 - 1
    header := (header_start, header_start)
    offsets := { first_byte_mask := 0x1f, pn := (0, 0), len := 0 } }

/-- Embeds `PacketBuilder::long`; `none` models the panic in `PacketType::code`
for types that have no long-header code. -/
def PacketBuilder.long (encoder : Encoder) (pt : PacketType)
    (dcid scid : List Nat) : Option PacketBuilder :=
  (pt.code).map fun c =>
    let header_start := encoder.length
    let encoder := encode_byte encoder
      (PACKET_BIT_LONG ||| PACKET_BIT_FIXED_QUIC ||| (c <<< 4))
    let encoder := encode_uint encoder 4 QUIC_VERSION
    let encoder := encode_vec1 encoder dcid
    let encoder := encode_vec1 encoder scid
    { encoder := encoder
      pn := 2 ^ 64 - 1
      header := (header_start, header_start)
      offsets := { first_byte_mask := 0x0f, pn := (0, 0), len := 0 } }

/-- Embeds `PacketBuilder::initial_token` (the debug assertion on the stored
first byte is debug-only and has no effect on the bytes produced). -/
def PacketBuilder.initial_token (pb : PacketBuilder) (token : List Nat) :
    PacketBuilder :=
  { pb with encoder := encode_vvec pb.encoder token }

/-- Embeds `PacketBuilder::pn` (named `addPn` here because the structure field
`pn` already uses the source name). -/
def PacketBuilder.addPn (pb : PacketBuilder) (v : Nat) (pn_len : Nat) :
    PacketBuilder :=
  -- Reserve space for a length in long headers.
  let isLong := (pb.encoder.getD pb.header.1 0) &&& 0x80 == PACKET_BIT_LONG
  let lenOffset := if isLong then pb.encoder.length else pb.offsets.len
  let e := if isLong then encode pb.encoder [0, 0] else pb.encoder
  -- Encode the packet number and save its offset.
  let pn_offset := e.length
  let e := encode_uint e pn_len v
  let pnRange := (pn_offset, e.length)
  -- Now encode the packet number length and save the header length.
  let e := e.set pb.header.1 ((e.getD pb.header.1 0) ||| (pn_len - 1))
  { encoder := e
    pn := v
    header := (pb.header.1, e.length)
    offsets := { pb.offsets with len := lenOffset, pn := pnRange } }

/-- Embeds `PacketBuilder::write_len`. -/
def PacketBuilder.write_len (pb : PacketBuilder) (expansion : Nat) :
    PacketBuilder :=
  let len := pb.encoder.length - (pb.offsets.len + 2) + expansion
  let e := pb.encoder.set pb.offsets.len (0x40 ||| ((len >>> 8) &&& 0x3f))
  let e := e.set (pb.offsets.len + 1) (len &&& 0xff)
  { pb with encoder := e }

/-- Appending payload bytes through the builder's `DerefMut` to the
encoder (`builder.encode(..)` in the source's tests and callers). -/
def PacketBuilder.encodeData (pb : PacketBuilder) (d : List Nat) :
    PacketBuilder :=
  { pb with encoder := encode pb.encoder d }

/-- The masking loop of `build`:
`for (i, j) in (1..=pn_len).zip(pn_range) { encoder[j] ^= mask[i] }`,
with `pos` the next packet-number byte index, `i` the next mask index and
`n` the iterations remaining. -/
def applyPnMask (e : Encoder) (mask : List Nat) : Nat → Nat → Nat → Encoder
  | _, _, 0 => e
  | pos, i, n + 1 =>
    applyPnMask (e.set pos ((e.getD pos 0) ^^^ (mask.getD i 0))) mask
      (pos + 1) (i + 1) n

/-- The header-protection step of `build`: XOR `mask[0] & first_byte_mask`
into the first header byte at `hstart`, then XOR `mask[1..]` into the
packet-number bytes `[pnStart, pnEnd)`. -/
def applyMask (e : Encoder) (mask : List Nat) (hstart fbm pnStart pnEnd : Nat) :
    Encoder :=
  let e1 := e.set hstart ((e.getD hstart 0) ^^^ ((mask.getD 0 0) &&& fbm))
  applyPnMask e1 mask pnStart 1 (pnEnd - pnStart)

/-- The external encryption provider (`CryptoDxState`), reduced to the
interface `build` consumes: `expansion`, `encrypt(pn, aad, body)` and
`compute_mask(sample)`. -/
structure CryptoDxState where
  expansion : Nat
  encrypt : Nat → List Nat → List Nat → Except Error (List Nat)
  compute_mask : List Nat → Except Error (List Nat)

/-- The builder after `build`'s optional `write_len` call. -/
def buildPrepared (pb : PacketBuilder) (expansion : Nat) : PacketBuilder :=
  if pb.offsets.len > 0 then pb.write_len expansion else pb

/-- The header slice `&encoder[header.start..header.end]`. -/
def headerBytes (pb : PacketBuilder) : List Nat :=
  (pb.encoder.drop pb.header.1).take (pb.header.2 - pb.header.1)

/-- The body slice `&encoder[header.end..]`. -/
def bodyBytes (pb : PacketBuilder) : List Nat :=
  pb.encoder.drop pb.header.2

/-- Embeds `PacketBuilder::build`.  `none` models the `assert!` panic when the
ciphertext is too short to sample; `some (.error e)` models `Err(e)`. -/
def PacketBuilder.build (pb0 : PacketBuilder) (crypto : CryptoDxState) :
    Option (Except Error Encoder) :=
  let pb := buildPrepared pb0 crypto.expansion
  match crypto.encrypt pb.pn (headerBytes pb) (bodyBytes pb) with
  | .error e => some (.error e)
  | .ok ciphertext =>
    -- Calculate the mask.
    let offset := 4 - (pb.offsets.pn.2 - pb.offsets.pn.1)
    if offset + SAMPLE_SIZE ≤ ciphertext.length then
      let sample := (ciphertext.drop offset).take SAMPLE_SIZE
      match crypto.compute_mask sample with
      | .error e => some (.error e)
      | .ok mask =>
        -- Apply the mask, cut off the plaintext, add back the ciphertext.
        let e2 := applyMask pb.encoder mask pb.header.1
          pb.offsets.first_byte_mask pb.offsets.pn.1 pb.offsets.pn.2
        some (.ok ((e2.take pb.header.2) ++ ciphertext))
    else none

/-- Embeds `PacketBuilder::abort`. -/
def PacketBuilder.abort (pb : PacketBuilder) : Encoder :=
  pb.encoder.take pb.header.1

/-- Embeds `PacketBuilder::is_empty`. -/
def PacketBuilder.is_empty (pb : PacketBuilder) : Bool :=
  pb.encoder.length == pb.header.2

/-- The fixed-key Retry protector, reduced to the interface `retry`
consumes (`Aead::expansion` and `Aead::encrypt(count, aad, input)`). -/
structure RetryAead where
  expansion : Nat
  encrypt : Nat → List Nat → List Nat → Except Error (List Nat)

/-- Embeds `PacketBuilder::retry`.  `aead` stands for the thread-local fixed-key
protector (`avail = false` models `try_with` failing, which the source
maps to `Error::InternalError`) and `rand0` for the byte `random(1)[0]`. -/
def PacketBuilder.retry (aead : RetryAead) (avail : Bool) (rand0 : Nat)
    (dcid scid token odcid : List Nat) : Except Error (List Nat) :=
  let encoder : Encoder := []
  let encoder := encode_vec1 encoder odcid
  let start := encoder.length
  let encoder := encode_byte encoder
    (PACKET_BIT_LONG ||| PACKET_BIT_FIXED_QUIC ||| (PACKET_TYPE_RETRY <<< 4) |||
      (rand0 &&& 0xf))
  let encoder := encode_uint encoder 4 QUIC_VERSION
  let encoder := encode_vec1 encoder dcid
  let encoder := encode_vec1 encoder scid
  let encoder := encode encoder token
  if avail then
    match aead.encrypt 0 encoder [] with
    | .error e => .error e
    | .ok tag => .ok ((encode encoder tag).drop start)
  else .error .internalError

/-- Embeds `PacketBuilder::version_negotiation`; `grease` stands for the five
bytes returned by `random(5)`. -/
def PacketBuilder.version_negotiation (grease : List Nat)
    (dcid scid : List Nat) : List Nat :=
  let encoder : Encoder := []
  -- This will not include the "QUIC bit" sometimes.  Intentionally.
  let encoder := encode_byte encoder (PACKET_BIT_LONG ||| ((grease.getD 4 0) &&& 0x7f))
  let encoder := encode encoder [0, 0, 0, 0]
  let encoder := encode_vec1 encoder dcid
  let encoder := encode_vec1 encoder scid
  let encoder := encode_uint encoder 4 QUIC_VERSION
  -- Add a greased version, using the randomness already generated.
  let greased := (grease.take 4).map fun g => (g &&& 0xf0) ||| 0x0a
  encode encoder greased

/-! ### Byte-list helper lemmas -/

theorem getD_set_self (l : List Nat) (i v d : Nat) (h : i < l.length) :
    (l.set i v).getD i d = v := by
  simp [List.getD_eq_getElem?_getD, List.getElem?_set_self h]

theorem getD_set_ne (l : List Nat) (i j v d : Nat) (h : i ≠ j) :
    (l.set i v).getD j d = l.getD j d := by
  simp [List.getD_eq_getElem?_getD, List.getElem?_set_ne h]

theorem getD_append_left (l m : List Nat) (i d : Nat) (h : i < l.length) :
    (l ++ m).getD i d = l.getD i d := by
  simp [List.getD_eq_getElem?_getD, List.getElem?_append_left h]

theorem getD_append_right (l m : List Nat) (i d : Nat) (h : l.length ≤ i) :
    (l ++ m).getD i d = m.getD (i - l.length) d := by
  simp [List.getD_eq_getElem?_getD, List.getElem?_append_right h]

theorem take_set_of_le (l : List Nat) (i v k : Nat) (h : k ≤ i) :
    (l.set i v).take k = l.take k := by
  induction l generalizing i k with
  | nil => simp
  | cons a l ih =>
    cases k with
    | zero => simp
    | succ k =>
      cases i with
      | zero => exact absurd h (by omega)
      | succ i =>
        simp only [List.set, List.take]
        rw [ih i k (by omega)]

theorem uintBytes_length (n v : Nat) : (uintBytes n v).length = n := by
  induction n generalizing v with
  | zero => rfl
  | succ n ih => simp [uintBytes, ih]

/-! ### Lemmas about the header-protection masking loop -/

theorem applyPnMask_length (mask : List Nat) (e : Encoder) (pos i n : Nat) :
    (applyPnMask e mask pos i n).length = e.length := by
  induction n generalizing e pos i with
  | zero => rfl
  | succ n ih => simp [applyPnMask, ih]

theorem applyPnMask_take (mask : List Nat) (e : Encoder) (pos i n k : Nat)
    (h : k ≤ pos) : (applyPnMask e mask pos i n).take k = e.take k := by
  induction n generalizing e pos i with
  | zero => rfl
  | succ n ih =>
    rw [applyPnMask, ih _ _ _ (by omega), take_set_of_le _ _ _ _ h]

theorem applyPnMask_getD_lt (mask : List Nat) (e : Encoder) (pos i n j : Nat)
    (h : j < pos) : (applyPnMask e mask pos i n).getD j 0 = e.getD j 0 := by
  induction n generalizing e pos i with
  | zero => rfl
  | succ n ih =>
    rw [applyPnMask, ih _ _ _ (by omega), getD_set_ne _ _ _ _ _ (by omega)]

theorem applyPnMask_getD_ge (mask : List Nat) (e : Encoder) (pos i n j : Nat)
    (h : pos + n ≤ j) : (applyPnMask e mask pos i n).getD j 0 = e.getD j 0 := by
  induction n generalizing e pos i with
  | zero => rfl
  | succ n ih =>
    rw [applyPnMask, ih _ _ _ (by omega), getD_set_ne _ _ _ _ _ (by omega)]

theorem applyPnMask_getD_mid (mask : List Nat) (e : Encoder) (pos i n t : Nat)
    (ht : t < n) (hlen : pos + t < e.length) :
    (applyPnMask e mask pos i n).getD (pos + t) 0 =
      (e.getD (pos + t) 0) ^^^ (mask.getD (i + t) 0) := by
  induction n generalizing e pos i t with
  | zero => omega
  | succ n ih =>
    rw [applyPnMask]
    cases t with
    | zero =>
      rw [applyPnMask_getD_lt _ _ _ _ _ _ (by omega)]
      simpa using getD_set_self e pos _ 0 (by omega)
    | succ t =>
      have hstep := ih (e.set pos ((e.getD pos 0) ^^^ (mask.getD i 0)))
        (pos + 1) (i + 1) t (by omega) (by simpa using (by omega : pos + 1 + t < e.length))
      have harr : pos + 1 + t = pos + (t + 1) := by omega
      have hmask : i + 1 + t = i + (t + 1) := by omega
      rw [harr] at hstep
      rw [hstep, getD_set_ne _ _ _ _ _ (by omega), hmask]

theorem applyMask_length (e : Encoder) (mask : List Nat)
    (hs fbm ps pe : Nat) :
    (applyMask e mask hs fbm ps pe).length = e.length := by
  simp [applyMask, applyPnMask_length]

theorem applyMask_take (e : Encoder) (mask : List Nat) (hs fbm ps pe k : Nat)
    (h1 : k ≤ hs) (h2 : pe ≤ ps ∨ k ≤ ps) :
    (applyMask e mask hs fbm ps pe).take k = e.take k := by
  rw [applyMask]
  rcases h2 with h2 | h2
  · have : pe - ps = 0 := by omega
    rw [this, applyPnMask, take_set_of_le _ _ _ _ h1]
  · rw [applyPnMask_take _ _ _ _ _ _ h2, take_set_of_le _ _ _ _ h1]

theorem applyMask_getD_first (e : Encoder) (mask : List Nat)
    (hs fbm ps pe : Nat) (hlt : hs < ps) (hhs : hs < e.length) :
    (applyMask e mask hs fbm ps pe).getD hs 0 =
      (e.getD hs 0) ^^^ ((mask.getD 0 0) &&& fbm) := by
  rw [applyMask, applyPnMask_getD_lt _ _ _ _ _ _ hlt]
  exact getD_set_self e hs _ 0 hhs

theorem applyMask_getD_pn (e : Encoder) (mask : List Nat)
    (hs fbm ps pe j : Nat) (hlt : hs < ps) (hj1 : ps ≤ j) (hj2 : j < pe)
    (hjlen : j < e.length) :
    (applyMask e mask hs fbm ps pe).getD j 0 =
      (e.getD j 0) ^^^ (mask.getD (j - ps + 1) 0) := by
  rw [applyMask]
  have hj : j = ps + (j - ps) := by omega
  rw [hj]
  rw [applyPnMask_getD_mid _ _ _ _ _ _ (by omega) (by simp; omega)]
  rw [getD_set_ne _ _ _ _ _ (by omega)]
  have h1 : 1 + (j - ps) = j - ps + 1 := by omega
  have h2 : ps + (j - ps) - ps + 1 = j - ps + 1 := by omega
  rw [h1, h2]

theorem applyMask_getD_other (e : Encoder) (mask : List Nat)
    (hs fbm ps pe j : Nat) (hse : ps ≤ pe) (hne : j ≠ hs)
    (hout : j < ps ∨ pe ≤ j) :
    (applyMask e mask hs fbm ps pe).getD j 0 = e.getD j 0 := by
  rw [applyMask]
  rcases hout with hout | hout
  · rw [applyPnMask_getD_lt _ _ _ _ _ _ hout, getD_set_ne _ _ _ _ _ (Ne.symm hne)]
  · rw [applyPnMask_getD_ge _ _ _ _ _ _ (by omega), getD_set_ne _ _ _ _ _ (Ne.symm hne)]

/-- Claim C1: In `build`, after a successful encrypt and mask computation, the
header-protection step (`applyMask`, applied in `build` to the prepared
encoder) XORs mask byte 0 restricted by `first_byte_mask` — which is `0x1f`
for builders made by `short` and `0x0f` for builders made by `long` — into
the first header byte, XORs mask bytes `1..pn_len` into the packet-number
field bytes in order, and modifies no other byte of the buffer. -/
theorem c1_header_protection_touches_exactly_first_byte_and_pn
    (e mask : Encoder) (hs fbm ps pe : Nat)
    (hlt : hs < ps) (hse : ps ≤ pe) (hpe : pe ≤ e.length) :
    (applyMask e mask hs fbm ps pe).length = e.length ∧
    (applyMask e mask hs fbm ps pe).getD hs 0 =
      (e.getD hs 0) ^^^ ((mask.getD 0 0) &&& fbm) ∧
    (∀ j, ps ≤ j → j < pe →
      (applyMask e mask hs fbm ps pe).getD j 0 =
        (e.getD j 0) ^^^ (mask.getD (j - ps + 1) 0)) ∧
    (∀ j, j ≠ hs → (j < ps ∨ pe ≤ j) →
      (applyMask e mask hs fbm ps pe).getD j 0 = e.getD j 0) ∧
    (∀ (e0 : Encoder) (kp : Bool) (d : List Nat),
      (PacketBuilder.short e0 kp d).offsets.first_byte_mask = 0x1f) ∧
    (∀ (e0 : Encoder) (pt : PacketType) (d s : List Nat) (pb : PacketBuilder),
      PacketBuilder.long e0 pt d s = some pb →
      pb.offsets.first_byte_mask = 0x0f) := by
  refine ⟨applyMask_length e mask hs fbm ps pe,
    applyMask_getD_first e mask hs fbm ps pe hlt (by omega),
    fun j hj1 hj2 => applyMask_getD_pn e mask hs fbm ps pe j hlt hj1 hj2 (by omega),
    fun j hne hout => applyMask_getD_other e mask hs fbm ps pe j hse hne hout,
    fun _ _ _ => rfl, fun e0 pt d s pb hpb => ?_⟩
  cases pt <;> simp [PacketBuilder.long, PacketType.code] at hpb <;>
    simp [← hpb]

/-- Witness for C1 at a concrete input. -/
theorem c1_witness :
    (applyMask [0x45, 2, 3, 4, 5] [0xff, 0xaa, 0xbb, 0, 0] 0 0x1f 1 3).length =
        ([0x45, 2, 3, 4, 5] : Encoder).length ∧
    (applyMask [0x45, 2, 3, 4, 5] [0xff, 0xaa, 0xbb, 0, 0] 0 0x1f 1 3).getD 0 0 =
      (([0x45, 2, 3, 4, 5] : Encoder).getD 0 0) ^^^
        ((([0xff, 0xaa, 0xbb, 0, 0] : List Nat).getD 0 0) &&& 0x1f) ∧
    (∀ j, 1 ≤ j → j < 3 →
      (applyMask [0x45, 2, 3, 4, 5] [0xff, 0xaa, 0xbb, 0, 0] 0 0x1f 1 3).getD j 0 =
        (([0x45, 2, 3, 4, 5] : Encoder).getD j 0) ^^^
          (([0xff, 0xaa, 0xbb, 0, 0] : List Nat).getD (j - 1 + 1) 0)) ∧
    (∀ j, j ≠ 0 → (j < 1 ∨ 3 ≤ j) →
      (applyMask [0x45, 2, 3, 4, 5] [0xff, 0xaa, 0xbb, 0, 0] 0 0x1f 1 3).getD j 0 =
        ([0x45, 2, 3, 4, 5] : Encoder).getD j 0) ∧
    (∀ (e0 : Encoder) (kp : Bool) (d : List Nat),
      (PacketBuilder.short e0 kp d).offsets.first_byte_mask = 0x1f) ∧
    (∀ (e0 : Encoder) (pt : PacketType) (d s : List Nat) (pb : PacketBuilder),
      PacketBuilder.long e0 pt d s = some pb →
      pb.offsets.first_byte_mask = 0x0f) :=
  c1_header_protection_touches_exactly_first_byte_and_pn
    [0x45, 2, 3, 4, 5] [0xff, 0xaa, 0xbb, 0, 0] 0 0x1f 1 3
    (by decide) (by decide) (by decide)

theorem getD_append_byte (l m : List Nat) (b : Nat) :
    ((l ++ [b]) ++ m).getD l.length 0 = b := by
  rw [getD_append_left _ _ _ _ (by simp),
    getD_append_right _ _ _ _ (Nat.le_refl _)]
  simp

theorem short_eq (e0 : Encoder) (kp : Bool) (d : List Nat) :
    PacketBuilder.short e0 kp d =
      { encoder := (e0 ++ [(PACKET_BIT_SHORT ||| PACKET_BIT_FIXED_QUIC |||
            ((if kp then 1 else 0) <<< 2)) % 256]) ++ d
        pn := 2 ^ 64 - 1
        header := (e0.length, e0.length)
        offsets := { first_byte_mask := 0x1f, pn := (0, 0), len := 0 } } := by
  simp [PacketBuilder.short, encode_byte, encode]

theorem long_eq (e0 : Encoder) (pt : PacketType) (d s : List Nat) (c : Nat)
    (hc : pt.code = some c) :
    PacketBuilder.long e0 pt d s =
      some
        { encoder := encode_vec1 (encode_vec1 (encode_uint
            (encode_byte e0 (PACKET_BIT_LONG ||| PACKET_BIT_FIXED_QUIC |||
              (c <<< 4))) 4 QUIC_VERSION) d) s
          pn := 2 ^ 64 - 1
          header := (e0.length, e0.length)
          offsets := { first_byte_mask := 0x0f, pn := (0, 0), len := 0 } } := by
  simp [PacketBuilder.long, hc]

theorem short_first_byte (e0 : Encoder) (kp : Bool) (d : List Nat) :
    (PacketBuilder.short e0 kp d).header.1 = e0.length ∧
    ((PacketBuilder.short e0 kp d).encoder.getD
        (PacketBuilder.short e0 kp d).header.1 0) &&& 0x80 = 0 := by
  refine ⟨rfl, ?_⟩
  show (((e0 ++ [(PACKET_BIT_SHORT ||| PACKET_BIT_FIXED_QUIC |||
      ((if kp then 1 else 0) <<< 2)) % 256]) ++ d).getD e0.length 0) &&& 0x80 = 0
  rw [getD_append_byte]
  cases kp <;> decide

theorem long_first_byte (e0 : Encoder) (pt : PacketType) (d s : List Nat)
    (pb : PacketBuilder) (h : PacketBuilder.long e0 pt d s = some pb) :
    pb.header.1 = e0.length ∧
    (pb.encoder.getD pb.header.1 0) &&& 0x80 = 0x80 := by
  have hgen : ∀ c : Nat, c ≤ 3 → pt.code = some c →
      pb.header.1 = e0.length ∧
      (pb.encoder.getD pb.header.1 0) &&& 0x80 = 0x80 := by
    intro c hle hc
    rw [long_eq e0 pt d s c hc] at h
    have h' := Option.some.inj h
    subst h'
    refine ⟨rfl, ?_⟩
    show ((encode_vec1 (encode_vec1 (encode_uint (encode_byte e0 _) 4
        QUIC_VERSION) d) s).getD e0.length 0) &&& 0x80 = 0x80
    rw [encode_vec1, encode_vec1, encode_uint, encode_byte]
    rw [getD_append_left _ _ _ _ (by simp [uintBytes_length])]
    rw [getD_append_left _ _ _ _ (by simp [uintBytes_length])]
    rw [getD_append_left _ _ _ _ (by simp [uintBytes_length])]
    rw [getD_append_left _ _ _ _ (by simp [uintBytes_length])]
    rw [getD_append_byte]
    interval_cases c <;> decide
  cases pt with
  | VersionNegotiation => simp [PacketBuilder.long, PacketType.code] at h
  | Short => simp [PacketBuilder.long, PacketType.code] at h
  | Initial => exact hgen 0 (by omega) rfl
  | ZeroRtt => exact hgen 1 (by omega) rfl
  | Handshake => exact hgen 2 (by omega) rfl
  | Retry => exact hgen 3 (by omega) rfl

theorem addPn_eq (pb : PacketBuilder) (v ln : Nat)
    (hhs : pb.header.1 < pb.encoder.length) :
    pb.addPn v ln =
      { encoder := ((pb.encoder ++
            (if (pb.encoder.getD pb.header.1 0) &&& 0x80 == PACKET_BIT_LONG
              then [0, 0] else [])) ++ uintBytes ln v).set pb.header.1
            ((pb.encoder.getD pb.header.1 0) ||| (ln - 1))
        pn := v
        header := (pb.header.1, pb.encoder.length +
          (if (pb.encoder.getD pb.header.1 0) &&& 0x80 == PACKET_BIT_LONG
            then 2 else 0) + ln)
        offsets := { pb.offsets with
          len := if (pb.encoder.getD pb.header.1 0) &&& 0x80 == PACKET_BIT_LONG
            then pb.encoder.length else pb.offsets.len
          pn := (pb.encoder.length +
              (if (pb.encoder.getD pb.header.1 0) &&& 0x80 == PACKET_BIT_LONG
                then 2 else 0),
            pb.encoder.length +
              (if (pb.encoder.getD pb.header.1 0) &&& 0x80 == PACKET_BIT_LONG
                then 2 else 0) + ln) } } := by
  have hpad : ∀ (pad u : List Nat),
      ((pb.encoder ++ pad) ++ u).getD pb.header.1 0 =
        pb.encoder.getD pb.header.1 0 := by
    intro pad u
    rw [getD_append_left _ _ _ _ (by simp; omega),
      getD_append_left _ _ _ _ hhs]
  have hone : ∀ u : List Nat,
      (pb.encoder ++ u).getD pb.header.1 0 = pb.encoder.getD pb.header.1 0 :=
    fun u => getD_append_left _ _ _ _ hhs
  by_cases hP : (pb.encoder.getD pb.header.1 0) &&& 0x80 = PACKET_BIT_LONG
  · have hL : ((pb.encoder.getD pb.header.1 0) &&& 0x80 == PACKET_BIT_LONG) = true := by
      simpa using hP
    simp only [PacketBuilder.addPn, hL, if_true, encode, encode_uint]
    simp only [PacketBuilder.mk.injEq, PacketBuilderoffsets.mk.injEq,
      Prod.mk.injEq, List.length_set, List.length_append, uintBytes_length]
    refine ⟨by rw [hpad], by simp⟩
  · have hL : ((pb.encoder.getD pb.header.1 0) &&& 0x80 == PACKET_BIT_LONG) = false := by
      simpa using hP
    simp only [PacketBuilder.addPn, hL, if_false, Bool.false_eq_true, encode,
      encode_uint, List.append_nil]
    simp only [PacketBuilder.mk.injEq, PacketBuilderoffsets.mk.injEq,
      Prod.mk.injEq, List.length_set, List.length_append, uintBytes_length]
    refine ⟨by rw [hone], by simp⟩

/-- Claim C2: For every builder whose first header byte's low two bits are
still clear (as they are after `short`/`long`) and every `len` with
`1 ≤ len ≤ 4`, `pn(value, len)` writes a 2-byte zero placeholder and
records its offset exactly when the header is a long header (first-byte
bit 0x80, which is set for `long` builders and clear for `short` ones),
then appends `value` as a `len`-byte big-endian field, records that
field's byte range, sets the low bits of the first header byte so they
encode `len − 1`, advances `header_end` to the end of the packet-number
field, and stores `value` as the nonce input for encryption. -/
theorem c2_pn_layout (pb : PacketBuilder) (v ln : Nat)
    (h1 : 1 ≤ ln) (h2 : ln ≤ 4)
    (hhs : pb.header.1 < pb.encoder.length)
    (hfb : (pb.encoder.getD pb.header.1 0) &&& 3 = 0) :
    ((pb.addPn v ln).encoder =
      ((pb.encoder ++
          (if (pb.encoder.getD pb.header.1 0) &&& 0x80 == PACKET_BIT_LONG
            then [0, 0] else [])) ++ uintBytes ln v).set pb.header.1
        ((pb.encoder.getD pb.header.1 0) ||| (ln - 1))) ∧
    ((pb.addPn v ln).offsets.len =
      if (pb.encoder.getD pb.header.1 0) &&& 0x80 == PACKET_BIT_LONG
        then pb.encoder.length else pb.offsets.len) ∧
    ((pb.encoder.getD pb.header.1 0) &&& 0x80 = 0x80 →
      (pb.addPn v ln).encoder.getD pb.encoder.length 0 = 0 ∧
      (pb.addPn v ln).encoder.getD (pb.encoder.length + 1) 0 = 0) ∧
    ((pb.addPn v ln).offsets.pn =
      (pb.encoder.length +
          (if (pb.encoder.getD pb.header.1 0) &&& 0x80 == PACKET_BIT_LONG
            then 2 else 0),
        pb.encoder.length +
          (if (pb.encoder.getD pb.header.1 0) &&& 0x80 == PACKET_BIT_LONG
            then 2 else 0) + ln)) ∧
    ((pb.addPn v ln).encoder.getD pb.header.1 0 =
      (pb.encoder.getD pb.header.1 0) ||| (ln - 1)) ∧
    (((pb.addPn v ln).encoder.getD pb.header.1 0) &&& 3 = ln - 1) ∧
    ((pb.addPn v ln).header =
      (pb.header.1, (pb.addPn v ln).encoder.length)) ∧
    ((pb.addPn v ln).header.2 = (pb.addPn v ln).offsets.pn.2) ∧
    ((pb.addPn v ln).pn = v) ∧
    (∀ (e0 : Encoder) (kp : Bool) (d : List Nat),
      ((PacketBuilder.short e0 kp d).encoder.getD
          (PacketBuilder.short e0 kp d).header.1 0) &&& 0x80 = 0) ∧
    (∀ (e0 : Encoder) (pt : PacketType) (d s : List Nat)
        (pb' : PacketBuilder),
      PacketBuilder.long e0 pt d s = some pb' →
      (pb'.encoder.getD pb'.header.1 0) &&& 0x80 = 0x80) := by
  rw [addPn_eq pb v ln hhs]
  have hset : ∀ (pad u : List Nat),
      (((pb.encoder ++ pad) ++ u).set pb.header.1
          ((pb.encoder.getD pb.header.1 0) ||| (ln - 1))).getD pb.header.1 0 =
        (pb.encoder.getD pb.header.1 0) ||| (ln - 1) := by
    intro pad u
    exact getD_set_self _ _ _ _ (by simp; omega)
  have hmask : ((pb.encoder.getD pb.header.1 0) ||| (ln - 1)) &&& 3 = ln - 1 := by
    rw [Nat.and_distrib_right, hfb, Nat.zero_or]
    have h3 : (3 : Nat) = 2 ^ 2 - 1 := by norm_num
    rw [h3, Nat.and_pow_two_sub_one_eq_mod]
    omega
  refine ⟨rfl, rfl, ?_, rfl, hset _ _, by rw [hset]; exact hmask,
    by simp only [List.length_set, List.length_append, uintBytes_length,
         apply_ite List.length, List.length_cons, List.length_nil],
    rfl, rfl,
    fun e0 kp d => (short_first_byte e0 kp d).2,
    fun e0 pt d s pb' h => (long_first_byte e0 pt d s pb' h).2⟩
  intro hlong
  have hL : ((pb.encoder.getD pb.header.1 0) &&& 0x80 == PACKET_BIT_LONG) = true := by
    simpa [PACKET_BIT_LONG] using hlong
  simp only [hL, if_true]
  constructor
  · rw [getD_set_ne _ _ _ _ _ (by omega),
      getD_append_left _ _ _ _ (by simp),
      getD_append_right _ _ _ _ (Nat.le_refl _)]
    simp
  · rw [getD_set_ne _ _ _ _ _ (by omega),
      getD_append_left _ _ _ _ (by simp),
      getD_append_right _ _ _ _ (by omega)]
    simp

/-- Witness for C2 at a concrete input: a `short`-started builder and a
`long`-started builder, each given `pn(7, 2)`. -/
theorem c2_witness :
    (1 ≤ 2 ∧ 2 ≤ 4 ∧
      (PacketBuilder.short [9] false [5]).header.1 <
        (PacketBuilder.short [9] false [5]).encoder.length ∧
      ((PacketBuilder.short [9] false [5]).encoder.getD
          (PacketBuilder.short [9] false [5]).header.1 0) &&& 3 = 0) ∧
    (((PacketBuilder.short [9] false [5]).addPn 7 2).encoder.getD
        (PacketBuilder.short [9] false [5]).header.1 0) &&& 3 = 2 - 1 ∧
    ((PacketBuilder.short [9] false [5]).addPn 7 2).pn = 7 := by
  refine ⟨⟨by decide, by decide, by decide, by decide⟩, ?_, ?_⟩
  · exact (c2_pn_layout (PacketBuilder.short [9] false [5]) 7 2
      (by decide) (by decide) (by decide) (by decide)).2.2.2.2.2.1
  · exact (c2_pn_layout (PacketBuilder.short [9] false [5]) 7 2
      (by decide) (by decide) (by decide) (by decide)).2.2.2.2.2.2.2.2.1

theorem or40_shiftRight6 : ∀ x : Nat, x < 64 → (0x40 ||| x) >>> 6 = 1 := by
  decide

theorem or40_and3f : ∀ x : Nat, x < 64 → (0x40 ||| x) &&& 0x3f = x := by
  decide

theorem and_3f_eq (L : Nat) : (L >>> 8) &&& 0x3f = (L / 256) % 64 := by
  have h1 : L >>> 8 = L / 256 := by
    rw [Nat.shiftRight_eq_div_pow]
  have h2 : (0x3f : Nat) = 2 ^ 6 - 1 := by norm_num
  rw [h1, h2, Nat.and_pow_two_sub_one_eq_mod]

theorem and_ff_eq (L : Nat) : L &&& 0xff = L % 256 := by
  have h2 : (0xff : Nat) = 2 ^ 8 - 1 := by norm_num
  rw [h2, Nat.and_pow_two_sub_one_eq_mod]

/-- Claim C3: For every builder state in which a length placeholder has been
reserved (`offsets.len + 2 ≤` buffer length, as `build` guarantees for
long non-Retry headers), `write_len expansion` encodes the value
`remaining bytes after the length field + expansion` into the reserved
2-byte placeholder as: top two bits `01`, remaining 14 bits the big-endian
magnitude, high byte first — so the lengths representable this way are
capped at 16383 — and touches no other byte. -/
theorem c3_write_len_varint_encoding (pb : PacketBuilder) (expansion : Nat)
    (hlen2 : pb.offsets.len + 2 ≤ pb.encoder.length) :
    ((pb.write_len expansion).encoder.length = pb.encoder.length) ∧
    ((pb.write_len expansion).encoder.getD pb.offsets.len 0 =
      0x40 ||| (((pb.encoder.length - (pb.offsets.len + 2) + expansion) >>> 8)
        &&& 0x3f)) ∧
    ((pb.write_len expansion).encoder.getD (pb.offsets.len + 1) 0 =
      (pb.encoder.length - (pb.offsets.len + 2) + expansion) &&& 0xff) ∧
    (((pb.write_len expansion).encoder.getD pb.offsets.len 0) >>> 6 = 1) ∧
    (pb.encoder.length - (pb.offsets.len + 2) + expansion ≤ 16383 →
      (((pb.write_len expansion).encoder.getD pb.offsets.len 0) &&& 0x3f) * 256 +
        ((pb.write_len expansion).encoder.getD (pb.offsets.len + 1) 0) =
        pb.encoder.length - (pb.offsets.len + 2) + expansion) ∧
    (∀ j, j ≠ pb.offsets.len → j ≠ pb.offsets.len + 1 →
      (pb.write_len expansion).encoder.getD j 0 = pb.encoder.getD j 0) := by
  have hx : ((pb.encoder.length - (pb.offsets.len + 2) + expansion) >>> 8)
      &&& 0x3f < 64 := by
    have := Nat.and_le_right
      (n := (pb.encoder.length - (pb.offsets.len + 2) + expansion) >>> 8)
      (m := 0x3f)
    omega
  have hb0 : (pb.write_len expansion).encoder.getD pb.offsets.len 0 =
      0x40 ||| (((pb.encoder.length - (pb.offsets.len + 2) + expansion) >>> 8)
        &&& 0x3f) := by
    show ((pb.encoder.set pb.offsets.len _).set (pb.offsets.len + 1) _).getD
      pb.offsets.len 0 = _
    rw [getD_set_ne _ _ _ _ _ (by omega)]
    exact getD_set_self _ _ _ _ (by omega)
  have hb1 : (pb.write_len expansion).encoder.getD (pb.offsets.len + 1) 0 =
      (pb.encoder.length - (pb.offsets.len + 2) + expansion) &&& 0xff := by
    show ((pb.encoder.set pb.offsets.len _).set (pb.offsets.len + 1) _).getD
      (pb.offsets.len + 1) 0 = _
    exact getD_set_self _ _ _ _ (by simp; omega)
  refine ⟨by simp [PacketBuilder.write_len], hb0, hb1, ?_, ?_, ?_⟩
  · rw [hb0]
    exact or40_shiftRight6 _ hx
  · intro hcap
    rw [hb0, hb1, or40_and3f _ hx, and_3f_eq, and_ff_eq]
    omega
  · intro j hj1 hj2
    show ((pb.encoder.set pb.offsets.len _).set (pb.offsets.len + 1) _).getD
      j 0 = _
    rw [getD_set_ne _ _ _ _ _ (Ne.symm hj2), getD_set_ne _ _ _ _ _ (Ne.symm hj1)]

/-- Witness for C3 at a concrete input. -/
theorem c3_witness :
    ({ encoder := [9, 0, 0, 5, 6], pn := 0, header := (0, 3),
       offsets := { first_byte_mask := 0x0f, len := 1, pn := (3, 5) } } :
        PacketBuilder).offsets.len + 2 ≤
      ({ encoder := [9, 0, 0, 5, 6], pn := 0, header := (0, 3),
         offsets := { first_byte_mask := 0x0f, len := 1, pn := (3, 5) } } :
          PacketBuilder).encoder.length ∧
    (({ encoder := [9, 0, 0, 5, 6], pn := 0, header := (0, 3),
        offsets := { first_byte_mask := 0x0f, len := 1, pn := (3, 5) } } :
          PacketBuilder).write_len 16).encoder.getD 1 0 >>> 6 = 1 :=
  ⟨by decide,
    (c3_write_len_varint_encoding
      { encoder := [9, 0, 0, 5, 6], pn := 0, header := (0, 3),
        offsets := { first_byte_mask := 0x0f, len := 1, pn := (3, 5) } }
      16 (by decide)).2.2.2.1⟩

/-- The packet-number field length recorded in the builder's offsets. -/
def pnLenOf (pb : PacketBuilder) : Nat := pb.offsets.pn.2 - pb.offsets.pn.1

/-- Claim C5: In `build`, the 16-byte header-protection sample is taken
starting at offset `4 − pn_len` into the ciphertext; whenever the
ciphertext is at least `(4 − pn_len) + 16` bytes long the assertion
guarding the sample cannot fail (`build` returns `some`, continuing with
the mask computed over exactly that sample), and a shorter ciphertext is a
fatal assertion (`none`, the model of a panic), not a recoverable
error. -/
theorem c5_sample_offset_and_assertion (pb : PacketBuilder)
    (crypto : CryptoDxState) (ct : List Nat)
    (henc : crypto.encrypt (buildPrepared pb crypto.expansion).pn
      (headerBytes (buildPrepared pb crypto.expansion))
      (bodyBytes (buildPrepared pb crypto.expansion)) = .ok ct) :
    ((4 - pnLenOf (buildPrepared pb crypto.expansion)) + 16 ≤ ct.length →
      pb.build crypto =
        some (match crypto.compute_mask
            ((ct.drop (4 - pnLenOf (buildPrepared pb crypto.expansion))).take 16) with
          | .error e => .error e
          | .ok mask => .ok
              ((applyMask (buildPrepared pb crypto.expansion).encoder mask
                  (buildPrepared pb crypto.expansion).header.1
                  (buildPrepared pb crypto.expansion).offsets.first_byte_mask
                  (buildPrepared pb crypto.expansion).offsets.pn.1
                  (buildPrepared pb crypto.expansion).offsets.pn.2).take
                (buildPrepared pb crypto.expansion).header.2 ++ ct))) ∧
    (ct.length < (4 - pnLenOf (buildPrepared pb crypto.expansion)) + 16 →
      pb.build crypto = none) := by
  constructor
  · intro hle
    simp only [PacketBuilder.build, henc]
    rw [if_pos (by simp only [SAMPLE_SIZE]; simp only [pnLenOf] at hle; omega)]
    rcases hm : crypto.compute_mask
        ((ct.drop (4 - pnLenOf (buildPrepared pb crypto.expansion))).take 16)
        with e | mask <;>
      simp only [pnLenOf, SAMPLE_SIZE] at hm ⊢ <;> rw [hm]
  · intro hlt
    simp only [PacketBuilder.build, henc]
    rw [if_neg (by simp only [SAMPLE_SIZE]; simp only [pnLenOf] at hlt; omega)]

/-- Witness for C5: a concrete builder, a provider whose `encrypt` returns
a fixed 20-byte ciphertext, and the resulting successful build. -/
theorem c5_witness :
    (CryptoDxState.mk 16 (fun _ _ _ => .ok (List.replicate 20 3))
        (fun _ => .ok [0, 0, 0, 0, 0])).encrypt
        (buildPrepared ((PacketBuilder.short [] false [5]).addPn 0 1)
          (CryptoDxState.mk 16 (fun _ _ _ => .ok (List.replicate 20 3))
            (fun _ => .ok [0, 0, 0, 0, 0])).expansion).pn
        (headerBytes (buildPrepared ((PacketBuilder.short [] false [5]).addPn 0 1)
          (CryptoDxState.mk 16 (fun _ _ _ => .ok (List.replicate 20 3))
            (fun _ => .ok [0, 0, 0, 0, 0])).expansion))
        (bodyBytes (buildPrepared ((PacketBuilder.short [] false [5]).addPn 0 1)
          (CryptoDxState.mk 16 (fun _ _ _ => .ok (List.replicate 20 3))
            (fun _ => .ok [0, 0, 0, 0, 0])).expansion)) =
      .ok (List.replicate 20 3) ∧
    ((4 - pnLenOf (buildPrepared ((PacketBuilder.short [] false [5]).addPn 0 1)
        (CryptoDxState.mk 16 (fun _ _ _ => .ok (List.replicate 20 3))
          (fun _ => .ok [0, 0, 0, 0, 0])).expansion)) + 16 ≤
      (List.replicate 20 3).length) ∧
    ((PacketBuilder.short [] false [5]).addPn 0 1).build
        (CryptoDxState.mk 16 (fun _ _ _ => .ok (List.replicate 20 3))
          (fun _ => .ok [0, 0, 0, 0, 0])) ≠ none := by
  refine ⟨rfl, by decide, ?_⟩
  have h := (c5_sample_offset_and_assertion
    ((PacketBuilder.short [] false [5]).addPn 0 1)
    (CryptoDxState.mk 16 (fun _ _ _ => .ok (List.replicate 20 3))
      (fun _ => .ok [0, 0, 0, 0, 0]))
    (List.replicate 20 3) rfl).1 (by decide)
  rw [h]
  simp

/-- Claim C10: If the encryption provider's `encrypt` or `compute_mask`
call fails during `build`, the result is exactly `some (.error e)`: the
error value carries only the provider's `Error`, no buffer, so the caller
(who moved the buffer into the consumed builder) cannot recover the bytes
built so far. -/
theorem c10_provider_failure_returns_bare_error (pb : PacketBuilder)
    (crypto : CryptoDxState) (err : Error) :
    (crypto.encrypt (buildPrepared pb crypto.expansion).pn
        (headerBytes (buildPrepared pb crypto.expansion))
        (bodyBytes (buildPrepared pb crypto.expansion)) = .error err →
      pb.build crypto = some (.error err)) ∧
    (∀ ct, crypto.encrypt (buildPrepared pb crypto.expansion).pn
        (headerBytes (buildPrepared pb crypto.expansion))
        (bodyBytes (buildPrepared pb crypto.expansion)) = .ok ct →
      (4 - pnLenOf (buildPrepared pb crypto.expansion)) + 16 ≤ ct.length →
      crypto.compute_mask
        ((ct.drop (4 - pnLenOf (buildPrepared pb crypto.expansion))).take 16) =
        .error err →
      pb.build crypto = some (.error err)) := by
  constructor
  · intro henc
    rw [PacketBuilder.build, henc]
  · intro ct henc hle hmask
    rw [(c5_sample_offset_and_assertion pb crypto ct henc).1 hle, hmask]

/-- Witness for C10: a provider whose `encrypt` always fails. -/
theorem c10_witness :
    (CryptoDxState.mk 16 (fun _ _ _ => .error Error.cryptoError)
        (fun _ => .ok [0, 0, 0, 0, 0])).encrypt
        (buildPrepared ((PacketBuilder.short [] false [5]).addPn 0 1)
          (CryptoDxState.mk 16 (fun _ _ _ => .error Error.cryptoError)
            (fun _ => .ok [0, 0, 0, 0, 0])).expansion).pn
        (headerBytes (buildPrepared ((PacketBuilder.short [] false [5]).addPn 0 1)
          (CryptoDxState.mk 16 (fun _ _ _ => .error Error.cryptoError)
            (fun _ => .ok [0, 0, 0, 0, 0])).expansion))
        (bodyBytes (buildPrepared ((PacketBuilder.short [] false [5]).addPn 0 1)
          (CryptoDxState.mk 16 (fun _ _ _ => .error Error.cryptoError)
            (fun _ => .ok [0, 0, 0, 0, 0])).expansion)) =
      .error Error.cryptoError ∧
    ((PacketBuilder.short [] false [5]).addPn 0 1).build
        (CryptoDxState.mk 16 (fun _ _ _ => .error Error.cryptoError)
          (fun _ => .ok [0, 0, 0, 0, 0])) =
      some (.error Error.cryptoError) :=
  ⟨rfl,
    (c10_provider_failure_returns_bare_error
      ((PacketBuilder.short [] false [5]).addPn 0 1)
      (CryptoDxState.mk 16 (fun _ _ _ => .error Error.cryptoError)
        (fun _ => .ok [0, 0, 0, 0, 0])) Error.cryptoError).1 rfl⟩

/-- Claim C9: `is_empty()` is true iff no payload bytes were added after the
header and packet number: for any builder, after `pn(v, len)` followed by
appending `data`, `is_empty` returns `data.isEmpty` — in particular it is
true immediately after `pn()` with no payload appended, and false after
any payload byte is appended. -/
theorem c9_is_empty_iff_no_payload (pb : PacketBuilder) (v ln : Nat)
    (data : List Nat) :
    ((pb.addPn v ln).is_empty = true) ∧
    (((pb.addPn v ln).encodeData data).is_empty = data.isEmpty) := by
  constructor
  · simp [PacketBuilder.is_empty, PacketBuilder.addPn]
  · cases data with
    | nil =>
      simp [PacketBuilder.is_empty, PacketBuilder.encodeData,
        PacketBuilder.addPn, encode]
    | cons b rest =>
      simp [PacketBuilder.is_empty, PacketBuilder.encodeData,
        PacketBuilder.addPn, encode]

theorem or_f0_and_f0 : ∀ x : Nat, x < 16 →
    ((0xf0 ||| x) % 256) &&& 0xf0 = 0xf0 := by
  decide

/-- Claim C6: A successful `retry(dcid, scid, token, odcid)` returns the
bytes starting at the transmitted header (the leading
original-destination-connection-ID prefix is stripped): a first byte with
high nibble `0b1111`, the 4-byte version, `dcid` and `scid` as
1-byte-length-prefixed fields, the token raw with no length prefix, and
the trailing integrity tag — the tag being whatever the fixed-key
protector's encrypt returned for zero-length plaintext, packet number 0,
and the entire buffer built so far (odcid prefix included) as associated
data, 16 bytes long for the fixed AEAD. -/
theorem c6_retry_layout (aead : RetryAead) (rand0 : Nat)
    (dcid scid token odcid tag : List Nat)
    (henc : aead.encrypt 0
      (encode (encode_vec1 (encode_vec1 (encode_uint
        (encode_byte (encode_vec1 [] odcid)
          (PACKET_BIT_LONG ||| PACKET_BIT_FIXED_QUIC |||
            (PACKET_TYPE_RETRY <<< 4) ||| (rand0 &&& 0xf)))
        4 QUIC_VERSION) dcid) scid) token) [] = .ok tag)
    (htag : tag.length = 16) :
    (PacketBuilder.retry aead true rand0 dcid scid token odcid =
      .ok ((((PACKET_BIT_LONG ||| PACKET_BIT_FIXED_QUIC |||
          (PACKET_TYPE_RETRY <<< 4) ||| (rand0 &&& 0xf)) % 256) ::
        (uintBytes 4 QUIC_VERSION ++ ([dcid.length % 256] ++ dcid) ++
          ([scid.length % 256] ++ scid) ++ token ++ tag)))) ∧
    (((PACKET_BIT_LONG ||| PACKET_BIT_FIXED_QUIC |||
        (PACKET_TYPE_RETRY <<< 4) ||| (rand0 &&& 0xf)) % 256) &&& 0xf0 =
      0xf0) ∧
    tag.length = 16 := by
  refine ⟨?_, ?_, htag⟩
  · rw [PacketBuilder.retry]
    simp only [if_true]
    rw [henc]
    simp only [encode, encode_byte, encode_uint, encode_vec1, uintBytes,
      Nat.mul_zero, Nat.shiftRight_zero, List.nil_append, List.append_assoc,
      List.cons_append, Option.some.injEq, Except.ok.injEq]
    rw [List.length_cons]
    rw [List.drop_succ_cons, List.drop_left]
  · have hx : rand0 &&& 0xf < 16 := by
      have := Nat.and_le_right (n := rand0) (m := 0xf)
      omega
    have : (PACKET_BIT_LONG ||| PACKET_BIT_FIXED_QUIC |||
        (PACKET_TYPE_RETRY <<< 4) ||| (rand0 &&& 0xf)) =
        0xf0 ||| (rand0 &&& 0xf) := by
      rw [show PACKET_BIT_LONG ||| PACKET_BIT_FIXED_QUIC |||
        (PACKET_TYPE_RETRY <<< 4) = 0xf0 from by decide]
    rw [this]
    exact or_f0_and_f0 _ hx

/-- Witness for C6 at concrete inputs, with a protector returning a fixed
16-byte tag. -/
theorem c6_witness :
    ((RetryAead.mk 16 (fun _ _ _ => .ok (List.replicate 16 9))).encrypt 0
      (encode (encode_vec1 (encode_vec1 (encode_uint
        (encode_byte (encode_vec1 [] [1, 2])
          (PACKET_BIT_LONG ||| PACKET_BIT_FIXED_QUIC |||
            (PACKET_TYPE_RETRY <<< 4) ||| (5 &&& 0xf)))
        4 QUIC_VERSION) [3]) [4]) [7, 7]) [] =
        .ok (List.replicate 16 9) ∧
      (List.replicate 16 9 : List Nat).length = 16) ∧
    PacketBuilder.retry (RetryAead.mk 16 (fun _ _ _ => .ok (List.replicate 16 9)))
        true 5 [3] [4] [7, 7] [1, 2] =
      .ok ((((PACKET_BIT_LONG ||| PACKET_BIT_FIXED_QUIC |||
          (PACKET_TYPE_RETRY <<< 4) ||| (5 &&& 0xf)) % 256) ::
        (uintBytes 4 QUIC_VERSION ++ ([([3] : List Nat).length % 256] ++ [3]) ++
          ([([4] : List Nat).length % 256] ++ [4]) ++ [7, 7] ++
            List.replicate 16 9))) :=
  ⟨⟨rfl, by decide⟩,
    (c6_retry_layout (RetryAead.mk 16 (fun _ _ _ => .ok (List.replicate 16 9)))
      5 [3] [4] [7, 7] [1, 2] (List.replicate 16 9) rfl (by decide)).1⟩

set_option maxRecDepth 4000 in
theorem grease_low_nibble : ∀ g : Nat, g < 256 →
    ((g &&& 0xf0) ||| 0xa) &&& 0xf = 0xa := by
  decide

set_option maxRecDepth 4000 in
theorem vn_first_byte_bit : ∀ g : Nat, g < 256 →
    ((0x80 ||| (g &&& 0x7f)) % 256) &&& 0x80 = 0x80 := by
  decide

/-- Claim C8: For every `dcid` and `scid` (and any 5 random bytes),
`version_negotiation(dcid, scid)` returns a byte sequence of length
exactly `1 + 4 + (1+len(dcid)) + (1+len(scid)) + 4 + 4` laid out as: one
first byte with the long-header bit set, a 4-zero-byte version field,
the 1-byte-length-prefixed connection IDs, the protocol's current version
constant big-endian, and a trailing greased 4-byte version whose every
byte has low nibble `0xA`. -/
theorem c8_version_negotiation_layout (grease dcid scid : List Nat)
    (h5 : grease.length = 5) (hb : ∀ g ∈ grease, g < 256) :
    ∃ fb gr,
      PacketBuilder.version_negotiation grease dcid scid =
        fb :: ([0, 0, 0, 0] ++ ([dcid.length % 256] ++ dcid) ++
          ([scid.length % 256] ++ scid) ++ uintBytes 4 QUIC_VERSION ++ gr) ∧
      (PacketBuilder.version_negotiation grease dcid scid).length =
        1 + 4 + (1 + dcid.length) + (1 + scid.length) + 4 + 4 ∧
      fb &&& 0x80 = 0x80 ∧
      gr.length = 4 ∧
      (∀ b ∈ gr, b &&& 0xf = 0xa) := by
  refine ⟨(PACKET_BIT_LONG ||| ((grease.getD 4 0) &&& 0x7f)) % 256,
    (grease.take 4).map fun g => (g &&& 0xf0) ||| 0x0a, ?_, ?_, ?_, ?_, ?_⟩
  · simp only [PacketBuilder.version_negotiation, encode, encode_byte,
      encode_uint, encode_vec1, uintBytes, Nat.mul_zero, Nat.shiftRight_zero,
      List.nil_append, List.append_assoc, List.cons_append]
  · simp only [PacketBuilder.version_negotiation, encode, encode_byte,
      encode_uint, encode_vec1]
    simp [uintBytes_length, List.length_take, h5]
    omega
  · have hmem : grease.getD 4 0 ∈ grease := by
      have h4 : (4 : Nat) < grease.length := by omega
      rw [List.getD_eq_getElem?_getD, List.getElem?_eq_getElem h4]
      exact List.getElem_mem h4
    exact vn_first_byte_bit _ (hb _ hmem)
  · simp [List.length_take, h5]
  · intro b hbmem
    rcases List.mem_map.mp hbmem with ⟨g, hg, rfl⟩
    exact grease_low_nibble g (hb g (List.mem_of_mem_take hg))

/-- Witness for C8 at concrete inputs. -/
theorem c8_witness :
    (([11, 22, 33, 44, 55] : List Nat).length = 5 ∧
      ∀ g ∈ ([11, 22, 33, 44, 55] : List Nat), g < 256) ∧
    ∃ fb gr,
      PacketBuilder.version_negotiation [11, 22, 33, 44, 55] [1, 2] [3] =
        fb :: ([0, 0, 0, 0] ++ ([([1, 2] : List Nat).length % 256] ++ [1, 2]) ++
          ([([3] : List Nat).length % 256] ++ [3]) ++
            uintBytes 4 QUIC_VERSION ++ gr) ∧
      (PacketBuilder.version_negotiation [11, 22, 33, 44, 55] [1, 2] [3]).length =
        1 + 4 + (1 + ([1, 2] : List Nat).length) +
          (1 + ([3] : List Nat).length) + 4 + 4 ∧
      fb &&& 0x80 = 0x80 ∧
      gr.length = 4 ∧
      (∀ b ∈ gr, b &&& 0xf = 0xa) :=
  ⟨⟨by decide, by decide⟩,
    c8_version_negotiation_layout [11, 22, 33, 44, 55] [1, 2] [3]
      (by decide) (by decide)⟩

/-- The operations a caller can apply to an in-progress builder between
its creation by `short`/`long` and its terminal `build`/`abort`. -/
inductive BuilderOp where
  | tok (token : List Nat)
  | num (v : Nat) (pn_len : Nat)
  | dat (d : List Nat)

def applyOp (pb : PacketBuilder) : BuilderOp → PacketBuilder
  | .tok t => pb.initial_token t
  | .num v ln => pb.addPn v ln
  | .dat d => pb.encodeData d

def applyOps (pb : PacketBuilder) (ops : List BuilderOp) : PacketBuilder :=
  ops.foldl applyOp pb

/-- The bookkeeping facts guaranteeing that a builder never writes at a
buffer index below `k`: every recorded offset that a later operation may
write through sits at or above `k`, and the header range is well formed. -/
structure BelowStart (k : Nat) (pb : PacketBuilder) : Prop where
  hs : k ≤ pb.header.1
  hh : pb.header.1 ≤ pb.header.2
  he : pb.header.2 ≤ pb.encoder.length
  hlen : pb.offsets.len = 0 ∨ k ≤ pb.offsets.len
  hpn : pb.offsets.pn.2 ≤ pb.offsets.pn.1 ∨ k ≤ pb.offsets.pn.1

theorem addPn_encoder (pb : PacketBuilder) (v ln : Nat) :
    (pb.addPn v ln).encoder =
      ((if (pb.encoder.getD pb.header.1 0) &&& 0x80 == PACKET_BIT_LONG
          then encode pb.encoder [0, 0] else pb.encoder) ++ uintBytes ln v).set
        pb.header.1
        ((((if (pb.encoder.getD pb.header.1 0) &&& 0x80 == PACKET_BIT_LONG
          then encode pb.encoder [0, 0] else pb.encoder) ++
            uintBytes ln v).getD pb.header.1 0) ||| (ln - 1)) := rfl

theorem addPn_header (pb : PacketBuilder) (v ln : Nat) :
    (pb.addPn v ln).header =
      (pb.header.1, (pb.addPn v ln).encoder.length) := rfl

theorem addPn_offsets_len (pb : PacketBuilder) (v ln : Nat) :
    (pb.addPn v ln).offsets.len =
      if (pb.encoder.getD pb.header.1 0) &&& 0x80 == PACKET_BIT_LONG
        then pb.encoder.length else pb.offsets.len := rfl

theorem addPn_offsets_pn (pb : PacketBuilder) (v ln : Nat) :
    (pb.addPn v ln).offsets.pn =
      ((if (pb.encoder.getD pb.header.1 0) &&& 0x80 == PACKET_BIT_LONG
          then encode pb.encoder [0, 0] else pb.encoder).length,
        ((if (pb.encoder.getD pb.header.1 0) &&& 0x80 == PACKET_BIT_LONG
          then encode pb.encoder [0, 0] else pb.encoder) ++
          uintBytes ln v).length) := rfl

theorem applyOp_header1 (pb : PacketBuilder) (op : BuilderOp) :
    (applyOp pb op).header.1 = pb.header.1 := by
  cases op <;> rfl

theorem belowStart_applyOp (k : Nat) (pb : PacketBuilder) (op : BuilderOp)
    (h : BelowStart k pb) :
    BelowStart k (applyOp pb op) ∧
    (applyOp pb op).encoder.take k = pb.encoder.take k := by
  obtain ⟨hs, hh, he, hlen, hpn⟩ := h
  have hkl : k ≤ pb.encoder.length := by omega
  cases op with
  | tok t =>
    refine ⟨⟨hs, hh, by simp [applyOp, PacketBuilder.initial_token, encode_vvec]; omega,
      hlen, hpn⟩, ?_⟩
    show ((pb.encoder ++ varintBytes t.length) ++ t).take k = _
    rw [List.take_append_of_le_length (by simp; omega),
      List.take_append_of_le_length hkl]
  | num v ln =>
    by_cases hP : (pb.encoder.getD pb.header.1 0) &&& 0x80 = PACKET_BIT_LONG
    case pos =>
      have hc : ((pb.encoder.getD pb.header.1 0) &&& 0x80 ==
          PACKET_BIT_LONG) = true := by simpa using hP
      have hlenE : pb.encoder.length ≤
          ((if (pb.encoder.getD pb.header.1 0) &&& 0x80 == PACKET_BIT_LONG
            then encode pb.encoder [0, 0] else pb.encoder) ++
              uintBytes ln v).length := by
        simp only [hc, if_true, encode, List.length_append, List.length_cons,
          List.length_nil]
        omega
      refine ⟨⟨?_, ?_, ?_, ?_, ?_⟩, ?_⟩
      · exact hs
      · show pb.header.1 ≤ (pb.addPn v ln).header.2
        rw [addPn_header]
        show pb.header.1 ≤ (pb.addPn v ln).encoder.length
        rw [addPn_encoder, List.length_set]
        omega
      · show (pb.addPn v ln).header.2 ≤ (pb.addPn v ln).encoder.length
        rw [addPn_header]
      · show (pb.addPn v ln).offsets.len = 0 ∨ k ≤ (pb.addPn v ln).offsets.len
        rw [addPn_offsets_len]
        simp only [hc, if_true]
        omega
      · show (pb.addPn v ln).offsets.pn.2 ≤ (pb.addPn v ln).offsets.pn.1 ∨
          k ≤ (pb.addPn v ln).offsets.pn.1
        rw [addPn_offsets_pn]
        right
        simp only [hc, if_true, encode, List.length_append]
        omega
      · show (pb.addPn v ln).encoder.take k = pb.encoder.take k
        rw [addPn_encoder, take_set_of_le _ _ _ _ hs]
        simp only [hc, if_true, encode]
        rw [List.take_append_of_le_length (by simp; omega),
          List.take_append_of_le_length hkl]
    case neg =>
      have hc : ((pb.encoder.getD pb.header.1 0) &&& 0x80 ==
          PACKET_BIT_LONG) = false := by simpa using hP
      have hlenE : pb.encoder.length ≤
          ((if (pb.encoder.getD pb.header.1 0) &&& 0x80 == PACKET_BIT_LONG
            then encode pb.encoder [0, 0] else pb.encoder) ++
              uintBytes ln v).length := by
        simp only [hc, Bool.false_eq_true, if_false, List.length_append]
        omega
      refine ⟨⟨?_, ?_, ?_, ?_, ?_⟩, ?_⟩
      · exact hs
      · show pb.header.1 ≤ (pb.addPn v ln).header.2
        rw [addPn_header]
        show pb.header.1 ≤ (pb.addPn v ln).encoder.length
        rw [addPn_encoder, List.length_set]
        omega
      · show (pb.addPn v ln).header.2 ≤ (pb.addPn v ln).encoder.length
        rw [addPn_header]
      · show (pb.addPn v ln).offsets.len = 0 ∨ k ≤ (pb.addPn v ln).offsets.len
        rw [addPn_offsets_len]
        simp only [hc, Bool.false_eq_true, if_false]
        exact hlen
      · show (pb.addPn v ln).offsets.pn.2 ≤ (pb.addPn v ln).offsets.pn.1 ∨
          k ≤ (pb.addPn v ln).offsets.pn.1
        rw [addPn_offsets_pn]
        right
        simp only [hc, Bool.false_eq_true, if_false]
        exact hkl
      · show (pb.addPn v ln).encoder.take k = pb.encoder.take k
        rw [addPn_encoder, take_set_of_le _ _ _ _ hs]
        simp only [hc, Bool.false_eq_true, if_false]
        rw [List.take_append_of_le_length hkl]
  | dat d =>
    refine ⟨⟨hs, hh, by simp [applyOp, PacketBuilder.encodeData, encode]; omega,
      hlen, hpn⟩, ?_⟩
    show (pb.encoder ++ d).take k = _
    rw [List.take_append_of_le_length hkl]

theorem applyOps_inv (k : Nat) (ops : List BuilderOp) (pb : PacketBuilder)
    (h : BelowStart k pb) :
    BelowStart k (applyOps pb ops) ∧
    (applyOps pb ops).encoder.take k = pb.encoder.take k ∧
    (applyOps pb ops).header.1 = pb.header.1 := by
  induction ops generalizing pb with
  | nil => exact ⟨h, rfl, rfl⟩
  | cons op ops ih =>
    obtain ⟨h1, h2⟩ := belowStart_applyOp k pb op h
    obtain ⟨g1, g2, g3⟩ := ih (applyOp pb op) h1
    refine ⟨g1, ?_, ?_⟩
    · rw [show applyOps pb (op :: ops) = applyOps (applyOp pb op) ops from rfl,
        g2, h2]
    · rw [show applyOps pb (op :: ops) = applyOps (applyOp pb op) ops from rfl,
        g3, applyOp_header1]

theorem belowStart_short (e0 : Encoder) (kp : Bool) (d : List Nat) :
    BelowStart e0.length (PacketBuilder.short e0 kp d) ∧
    (PacketBuilder.short e0 kp d).encoder.take e0.length = e0 ∧
    (PacketBuilder.short e0 kp d).header.1 = e0.length := by
  refine ⟨⟨Nat.le_refl _, Nat.le_refl _, ?_, Or.inl rfl, Or.inl (Nat.le_refl _)⟩,
    ?_, rfl⟩
  · show e0.length ≤ ((e0 ++ [_]) ++ d).length
    simp
  · show ((e0 ++ [_]) ++ d).take e0.length = e0
    rw [List.take_append_of_le_length (by simp), List.take_left]

theorem belowStart_long (e0 : Encoder) (pt : PacketType) (d s : List Nat)
    (pb : PacketBuilder) (h : PacketBuilder.long e0 pt d s = some pb) :
    BelowStart e0.length pb ∧ pb.encoder.take e0.length = e0 ∧
    pb.header.1 = e0.length := by
  have hgen : ∀ c : Nat, pt.code = some c →
      BelowStart e0.length pb ∧ pb.encoder.take e0.length = e0 ∧
      pb.header.1 = e0.length := by
    intro c hc
    rw [long_eq e0 pt d s c hc] at h
    have h' := Option.some.inj h
    subst h'
    refine ⟨⟨Nat.le_refl _, Nat.le_refl _, ?_, Or.inl rfl,
      Or.inl (Nat.le_refl _)⟩, ?_, rfl⟩
    · show e0.length ≤ (encode_vec1 (encode_vec1 (encode_uint
        (encode_byte e0 _) 4 QUIC_VERSION) d) s).length
      simp [encode_vec1, encode_uint, encode_byte, uintBytes_length]
    · show (encode_vec1 (encode_vec1 (encode_uint
        (encode_byte e0 _) 4 QUIC_VERSION) d) s).take e0.length = e0
      rw [encode_vec1, encode_vec1, encode_uint, encode_byte]
      rw [List.take_append_of_le_length (by simp [uintBytes_length])]
      rw [List.take_append_of_le_length (by simp [uintBytes_length])]
      rw [List.take_append_of_le_length (by simp [uintBytes_length])]
      rw [List.take_append_of_le_length (by simp [uintBytes_length])]
      rw [List.take_append_of_le_length (by simp [uintBytes_length])]
      rw [List.take_append_of_le_length (by simp)]
      exact List.take_length e0
  cases pt with
  | VersionNegotiation => simp [PacketBuilder.long, PacketType.code] at h
  | Short => simp [PacketBuilder.long, PacketType.code] at h
  | Initial => exact hgen 0 rfl
  | ZeroRtt => exact hgen 1 rfl
  | Handshake => exact hgen 2 rfl
  | Retry => exact hgen 3 rfl

theorem buildPrepared_inv (k : Nat) (pb : PacketBuilder) (x : Nat)
    (h : BelowStart k pb) :
    BelowStart k (buildPrepared pb x) ∧
    (buildPrepared pb x).encoder.take k = pb.encoder.take k := by
  obtain ⟨hs, hh, he, hlen, hpn⟩ := h
  rw [buildPrepared]
  by_cases hg : pb.offsets.len > 0
  · rw [if_pos hg]
    have hk : k ≤ pb.offsets.len := by
      rcases hlen with h0 | h1
      · omega
      · exact h1
    refine ⟨⟨hs, hh, ?_, hlen, hpn⟩, ?_⟩
    · show pb.header.2 ≤ ((pb.encoder.set _ _).set _ _).length
      simpa using he
    · show ((pb.encoder.set _ _).set _ _).take k = _
      rw [take_set_of_le _ _ _ _ (by omega), take_set_of_le _ _ _ _ hk]
  · rw [if_neg hg]
    exact ⟨⟨hs, hh, he, hlen, hpn⟩, rfl⟩

theorem build_take_of_belowStart (k : Nat) (pb : PacketBuilder)
    (crypto : CryptoDxState) (out : Encoder)
    (h : BelowStart k pb) (hb : pb.build crypto = some (.ok out)) :
    out.take k = pb.encoder.take k := by
  obtain ⟨h1, h2⟩ := buildPrepared_inv k pb crypto.expansion h
  obtain ⟨hs', hh', he', hlen', hpn'⟩ := h1
  rcases henc : crypto.encrypt (buildPrepared pb crypto.expansion).pn
      (headerBytes (buildPrepared pb crypto.expansion))
      (bodyBytes (buildPrepared pb crypto.expansion)) with e | ct
  · simp [PacketBuilder.build, henc] at hb
  · simp only [PacketBuilder.build, henc] at hb
    by_cases hif : 4 - ((buildPrepared pb crypto.expansion).offsets.pn.2 -
        (buildPrepared pb crypto.expansion).offsets.pn.1) + SAMPLE_SIZE ≤
        ct.length
    · rw [if_pos hif] at hb
      rcases hm : crypto.compute_mask
          ((ct.drop (4 - ((buildPrepared pb crypto.expansion).offsets.pn.2 -
            (buildPrepared pb crypto.expansion).offsets.pn.1))).take
            SAMPLE_SIZE) with e | mask
      · rw [hm] at hb
        simp at hb
      · rw [hm] at hb
        simp only [Option.some.injEq, Except.ok.injEq] at hb
        rw [← hb]
        have hXlen : k ≤ ((applyMask (buildPrepared pb crypto.expansion).encoder
            mask (buildPrepared pb crypto.expansion).header.1
            (buildPrepared pb crypto.expansion).offsets.first_byte_mask
            (buildPrepared pb crypto.expansion).offsets.pn.1
            (buildPrepared pb crypto.expansion).offsets.pn.2).take
              (buildPrepared pb crypto.expansion).header.2).length := by
          simp only [List.length_take, applyMask_length]
          omega
        rw [List.take_append_of_le_length hXlen, List.take_take,
          Nat.min_eq_left (by omega)]
        rw [applyMask_take _ _ _ _ _ _ _ hs' hpn']
        exact h2
    · rw [if_neg hif] at hb
      simp at hb

/-- Claim C7: For every builder, `abort()` returns the buffer truncated back
to exactly `header_start`; for a builder created by `short` or `long` on a
buffer `e0` and then driven through any sequence of `initial_token` / `pn`
/ payload-append operations, `abort` returns exactly `e0` — starting a
packet and aborting it is the identity on the buffer contents. -/
theorem c7_abort_identity (pb0 : PacketBuilder) (e0 : Encoder) (kp : Bool)
    (dcid : List Nat) (pt : PacketType) (scid : List Nat)
    (ops : List BuilderOp) :
    (pb0.abort = pb0.encoder.take pb0.header.1) ∧
    ((applyOps (PacketBuilder.short e0 kp dcid) ops).abort = e0) ∧
    (∀ pb, PacketBuilder.long e0 pt dcid scid = some pb →
      (applyOps pb ops).abort = e0) := by
  refine ⟨rfl, ?_, ?_⟩
  · obtain ⟨hB, ht, hh1⟩ := belowStart_short e0 kp dcid
    obtain ⟨g1, g2, g3⟩ := applyOps_inv e0.length ops _ hB
    rw [PacketBuilder.abort, g3, hh1, g2, ht]
  · intro pb hpb
    obtain ⟨hB, ht, hh1⟩ := belowStart_long e0 pt dcid scid pb hpb
    obtain ⟨g1, g2, g3⟩ := applyOps_inv e0.length ops _ hB
    rw [PacketBuilder.abort, g3, hh1, g2, ht]

/-- A concrete builder state used to instantiate theorems. -/
def pbSample : PacketBuilder :=
  { encoder := [1, 2, 3], pn := 0, header := (1, 2),
    offsets := { first_byte_mask := 0x1f, len := 0, pn := (0, 0) } }

/-- Witness for C7 at a concrete input: a long Initial packet started on a
non-empty buffer, given a token, packet number and payload, then aborted. -/
theorem c7_witness :
    (pbSample.abort = pbSample.encoder.take pbSample.header.1) ∧
    ((applyOps (PacketBuilder.short [9, 8] true [5])
        [.num 1 2, .dat [4, 4, 4]]).abort = [9, 8]) ∧
    (∀ pb, PacketBuilder.long [9, 8] PacketType.Initial [5] [6] = some pb →
      (applyOps pb [.num 1 2, .dat [4, 4, 4]]).abort = [9, 8]) :=
  c7_abort_identity pbSample [9, 8] true [5] PacketType.Initial [6]
    [.num 1 2, .dat [4, 4, 4]]

/-- Claim C4: Coalescing preserves an already-built packet byte for byte:
for every buffer `e0` (holding packet A's output) and every second packet
built into that buffer — created by `short` or `long`, driven through any
sequence of `initial_token` / `pn` / payload-append operations, and
finished by a successful `build` — the first `len(e0)` bytes of both the
in-progress buffer and the final output equal `e0` exactly; no operation
of the second builder modifies any byte below its `header_start`. -/
theorem c4_coalescing_preserves_packet_a (e0 : Encoder) (kp : Bool)
    (dcid scid : List Nat) (pt : PacketType) (ops : List BuilderOp)
    (crypto : CryptoDxState) :
    ((applyOps (PacketBuilder.short e0 kp dcid) ops).encoder.take e0.length =
      e0) ∧
    (∀ out, (applyOps (PacketBuilder.short e0 kp dcid) ops).build crypto =
        some (.ok out) → out.take e0.length = e0) ∧
    (∀ pb, PacketBuilder.long e0 pt dcid scid = some pb →
      ((applyOps pb ops).encoder.take e0.length = e0) ∧
      (∀ out, (applyOps pb ops).build crypto = some (.ok out) →
        out.take e0.length = e0)) := by
  obtain ⟨hBs, hts, _⟩ := belowStart_short e0 kp dcid
  obtain ⟨g1s, g2s, _⟩ := applyOps_inv e0.length ops _ hBs
  refine ⟨by rw [g2s, hts], ?_, ?_⟩
  · intro out hb
    rw [build_take_of_belowStart e0.length _ crypto out g1s hb, g2s, hts]
  · intro pb hpb
    obtain ⟨hBl, htl, _⟩ := belowStart_long e0 pt dcid scid pb hpb
    obtain ⟨g1l, g2l, _⟩ := applyOps_inv e0.length ops _ hBl
    refine ⟨by rw [g2l, htl], ?_⟩
    intro out hb
    rw [build_take_of_belowStart e0.length _ crypto out g1l hb, g2l, htl]

/-- Witness for C4 at a concrete input: a short packet with a 1-byte
packet number and 3-byte payload built (with a stub provider) on top of a
2-byte buffer, exercising the successful-build branch. -/
theorem c4_witness :
    ((applyOps (PacketBuilder.short [9, 8] true [5])
        [.num 1 1, .dat [4, 4, 4]]).encoder.take 2 = [9, 8]) ∧
    (∀ out, (applyOps (PacketBuilder.short [9, 8] true [5])
        [.num 1 1, .dat [4, 4, 4]]).build
        (CryptoDxState.mk 16 (fun _ _ body => .ok (body ++ List.replicate 16 0))
          (fun _ => .ok [1, 2, 3, 4, 5])) = some (.ok out) →
      out.take 2 = [9, 8]) ∧
    (∃ out, (applyOps (PacketBuilder.short [9, 8] true [5])
        [.num 1 1, .dat [4, 4, 4]]).build
        (CryptoDxState.mk 16 (fun _ _ body => .ok (body ++ List.replicate 16 0))
          (fun _ => .ok [1, 2, 3, 4, 5])) = some (.ok out)) := by
  have h := c4_coalescing_preserves_packet_a [9, 8] true [5] [6]
    PacketType.Initial [.num 1 1, .dat [4, 4, 4]]
    (CryptoDxState.mk 16 (fun _ _ body => .ok (body ++ List.replicate 16 0))
      (fun _ => .ok [1, 2, 3, 4, 5]))
  exact ⟨h.1, h.2.1, by exact ⟨_, rfl⟩⟩

end Packet2
